import Mathlib

/-!
# Verification model of the pingo probing core

A shallow embedding of the probe-scheduling and state-synchronization core of
the pingo reachability dashboard (files pingo.go and unix-funcs.go):

* the address store (`databases` with `addNewIP`, `deleteIP`, `deleteOneMoreIPs`,
  `getAllIPs`, `getStats`, ...);
* the statistics accumulator (`buildStats` / `updateStats`);
* the Unix ping-output line classifier (`getResponseTime`);
* one scheduler-loop iteration (`schedulePing`);
* the probe runners (`executePing`, `executeTraceroute`) over an abstract
  process environment.

Go strings are modelled as Lean `String`s; Go byte offsets and byte lengths
coincide with character offsets on ASCII input, and UTF-8 byte-wise string
comparison coincides with code-point lexicographic comparison, so character
level functions over `String.data` are a faithful model.  Fallible Go code
(out-of-range slicing and indexing, nil-map dereference: all runtime panics)
is modelled with `Option`, `none` standing for a panic.  IP validation
delegates to the Go standard library (`net.ParseIP`, outside this repository),
so store operations take the validity predicate as an explicit argument.
-/

namespace Pingo

/-! ## Go string primitives (charlist level) -/

/-- Whitespace recognised by Go `unicode.IsSpace`, restricted to the Latin-1
range (the full table is irrelevant for ping output, which is ASCII). -/
def isGoSpace (c : Char) : Bool :=
  c = ' ' || c = '\t' || c = '\n' || c = Char.ofNat 11 || c = Char.ofNat 12 ||
  c = '\r' || c = Char.ofNat 133 || c = Char.ofNat 160

/-- Go `strings.TrimSpace`: drop leading and trailing whitespace. -/
def trimChars (l : List Char) : List Char :=
  ((l.dropWhile isGoSpace).reverse.dropWhile isGoSpace).reverse

/-- Go `strings.TrimSpace` on `String`. -/
def goTrimSpace (s : String) : String :=
  String.mk (trimChars s.data)

/-- Go `strings.Split` with a one-character separator, on char lists.
Always returns at least one (possibly empty) field. -/
def splitChar (sep : Char) : List Char → List (List Char)
  | [] => [[]]
  | c :: rest =>
    match splitChar sep rest with
    | [] => [[]]
    | h :: t => if c = sep then [] :: h :: t else (c :: h) :: t

/-- Go `strings.Split` with a one-character separator, on `String`. -/
def goSplit (s : String) (sep : Char) : List String :=
  (splitChar sep s.data).map String.mk

/-- Go `strings.Index`: position of the first occurrence of `pat` in `s`,
`-1` when `pat` does not occur. -/
def indexOfSub (pat : List Char) : List Char → Int
  | [] => if pat.isPrefixOf ([] : List Char) then 0 else -1
  | c :: t =>
    if pat.isPrefixOf (c :: t) then 0
    else
      let r := indexOfSub pat t
      if r = -1 then -1 else r + 1

/-- Go slice expression `s[lo:hi]` (bounds already checked). -/
def sliceChars (cs : List Char) (lo hi : Nat) : List Char :=
  (cs.take hi).drop lo

/-- Value of a (non-empty, all-digit) decimal digit string. -/
def digitsToNat (l : List Char) : Nat :=
  l.foldl (fun n c => 10 * n + (c.toNat - 48)) 0

/-- Clamping performed by Go `strconv.ParseInt` on a 64-bit platform: a
syntactically valid but out-of-range literal yields the saturated value
(together with `ErrRange`, which `getResponseTime` discards). -/
def clampInt64 (v : Int) : Int :=
  if v < -(2 ^ 63) then -(2 ^ 63)
  else if v > 2 ^ 63 - 1 then 2 ^ 63 - 1
  else v

/-- Sign handling of Go `strconv.ParseInt`: strip one optional leading sign,
returning the sign factor and the remaining digit part. -/
def atoiSign (cs : List Char) : Int × List Char :=
  match cs with
  | '+' :: t => (1, t)
  | '-' :: t => (-1, t)
  | t => (1, t)

/-- Go `strconv.Atoi` with the error discarded (as both call sites in the
source do): `0` on a syntax error, the clamped value on a range error. -/
def goAtoi (cs : List Char) : Int :=
  if (atoiSign cs).2 = [] || !((atoiSign cs).2.all Char.isDigit) then 0
  else clampInt64 ((atoiSign cs).1 * (digitsToNat (atoiSign cs).2 : Int))

/-- The string is a plain decimal-integer string: optional sign followed by
at least one ASCII digit (Go `strconv.Atoi` syntax). -/
def isPlainInt (cs : List Char) : Bool :=
  !((atoiSign cs).2 = [] : Bool) && (atoiSign cs).2.all Char.isDigit

/-! ## The Unix line classifier (unix-funcs.go, getResponseTime) -/

/-- Model of `getResponseTime` (unix-funcs.go:21-37).  Extracts the
round-trip time from a Linux ping reply line; `(-1, false)` means ignore the
line, `(-1, true)` means count a failure.  Where the Go code slices
`output[(indexT+5):indexM]` out of range (a runtime panic) the model returns
`none`. -/
def getResponseTime (output : String) : Option (Int × Bool) :=
  if indexOfSub "time=".data output.data > 0 then
    if 0 ≤ indexOfSub "time=".data output.data + 5 ∧
        indexOfSub "time=".data output.data + 5 ≤
          indexOfSub " ms".data output.data ∧
        indexOfSub " ms".data output.data ≤ (output.data.length : Int) then
      some (goAtoi (sliceChars output.data
        (indexOfSub "time=".data output.data + 5).toNat
        (indexOfSub " ms".data output.data).toNat), false)
    else
      none
  else if "PING".data.isPrefixOf output.data ||
      "---".data.isPrefixOf output.data ||
      "rtt".data.isPrefixOf output.data ||
      decide (0 ≤ indexOfSub "%".data output.data) then
    some (-1, false)
  else
    some (-1, true)

/-! ## Data model (pingo.go, types config and stat) -/

/-- Per-address probe configuration (pingo.go:77-84).  Go `int` fields are
modelled as `Int`. -/
structure config where
  start : String
  requests : Int
  threshold : Int
  timeout : Int
  size : Int
  backup : Bool
deriving DecidableEq

/-- Per-address accumulated statistics (pingo.go:86-94). -/
structure stat where
  min : Int
  avg : Int
  max : Int
  fails : Int
  «match» : Int
  above : Int
  under : Int
deriving DecidableEq

/-- The configuration record created by `addConfig` (pingo.go:201):
all-zero fields except the "n/a" start timestamp. -/
def defaultConfig : config :=
  { start := "n/a", requests := 0, threshold := 0, timeout := 0, size := 0,
    backup := false }

/-- The all-zero statistics record created by `addStats` (pingo.go:208). -/
def zeroStat : stat :=
  { min := 0, avg := 0, max := 0, fails := 0, «match» := 0, above := 0,
    under := 0 }

/-! ## Association-list model of the three Go maps -/

/-- Lookup in a Go map modelled as an association list (first binding wins;
the store operations never create duplicate keys). -/
def lookupKey {β : Type} (k : String) : List (String × β) → Option β
  | [] => none
  | p :: t => if p.1 = k then some p.2 else lookupKey k t

/-- Go map assignment `m[k] = v`. -/
def setKey {β : Type} (k : String) (v : β) (m : List (String × β)) :
    List (String × β) :=
  (k, v) :: m.filter (fun p => !decide (p.1 = k))

/-- Go map deletion `delete(m, k)`. -/
def delKey {β : Type} (k : String) (m : List (String × β)) :
    List (String × β) :=
  m.filter (fun p => !decide (p.1 = k))

/-- The global datastore (pingo.go:131-138): the set of addresses and the two
per-address record maps.  The per-map locks serialize access; the sequential
model works on the state between critical sections. -/
structure databases where
  ips : List String
  configs : List (String × config)
  stats : List (String × stat)
deriving DecidableEq

/-- Model of `newDatabases` (pingo.go:141-150): all three maps empty. -/
def newDatabases : databases := ⟨[], [], []⟩

/-! ## Store operations (pingo.go:153-292).

The Go code validates addresses with `net.ParseIP`, a standard-library
function outside this repository; each operation that validates therefore
takes the validity predicate `validIP` as an explicit argument. -/

/-- Model of `isExistsIP` (pingo.go:153-164). -/
def isExistsIP (db : databases) (ip : String) : Bool :=
  db.ips.contains ip

/-- Model of `addIP` (pingo.go:192-196): Go map key insertion; on the list
model of a set, inserting a present key is the identity. -/
def addIP (db : databases) (ip : String) : databases :=
  { db with ips := if db.ips.contains ip then db.ips else ip :: db.ips }

/-- Model of `addConfig` (pingo.go:199-203). -/
def addConfig (db : databases) (ip : String) : databases :=
  { db with configs := setKey ip defaultConfig db.configs }

/-- Model of `addStats` (pingo.go:206-210). -/
def addStats (db : databases) (ip : String) : databases :=
  { db with stats := setKey ip zeroStat db.stats }

/-- Model of `addNewIP` (pingo.go:180-189): trim, validate, no-op when the
address is invalid or already present, otherwise insert into all three maps. -/
def addNewIP (validIP : String → Bool) (db : databases) (ip : String) :
    databases :=
  let ip := goTrimSpace ip
  if !validIP ip || isExistsIP db ip then db
  else addStats (addConfig (addIP db ip) ip) ip

/-- Model of `addOneMoreIPs` (pingo.go:168-177). -/
def addOneMoreIPs (validIP : String → Bool) (db : databases) (ips : String) :
    databases :=
  let ipList := goSplit ips ','
  if ipList.length = 0 then db
  else ipList.foldl (addNewIP validIP) db

/-- Model of `deleteIP` (pingo.go:263-283): trim, validate, no-op when the
address is invalid or absent, otherwise delete from all three maps. -/
def deleteIP (validIP : String → Bool) (db : databases) (ip : String) :
    databases :=
  let ip := goTrimSpace ip
  if !validIP ip || !isExistsIP db ip then db
  else
    { ips := db.ips.filter (fun x => !decide (x = ip)),
      configs := delKey ip db.configs,
      stats := delKey ip db.stats }

/-- Model of `deleteOneMoreIPs` (pingo.go:248-260): split the request on
commas and delete each token, skipping a token exactly when the raw
(untrimmed) token equals the global `currentOnPingIP`. -/
def deleteOneMoreIPs (validIP : String → Bool) (currentOnPingIP : String)
    (db : databases) (ips : String) : databases :=
  let ipList := goSplit ips ','
  if ipList.length = 0 then db
  else
    ipList.foldl
      (fun db ip => if ip = currentOnPingIP then db else deleteIP validIP db ip)
      db

/-- Model of `getStats` (pingo.go:222-228): the Go function returns a `nil`
pointer for an absent key, modelled as `none`. -/
def getStats (db : databases) (ip : String) : Option stat :=
  lookupKey ip db.stats

/-! ## The sorted address listing (pingo.go, getAllIPs) -/

/-- Byte-wise string comparison used by Go `sort.Strings`; on char lists,
code-point order (identical to UTF-8 byte order). -/
def lexLeChars : List Char → List Char → Bool
  | [], _ => true
  | _ :: _, [] => false
  | a :: as, b :: bs => if a = b then lexLeChars as bs else decide (a < b)

/-- Go string `≤` (byte-wise / code-point lexicographic). -/
def lexLe (a b : String) : Bool :=
  lexLeChars a.data b.data

/-- Go `len` on strings: the UTF-8 byte length. -/
def goLen (s : String) : Nat :=
  s.utf8ByteSize

/-- Go string order as a relation (the order `sort.Strings` sorts by). -/
def lexLeP (a b : String) : Prop :=
  lexLe a b = true

/-- The order `sort.SliceStable(ips, less)` sorts by in `getAllIPs`, as a
reflexive relation: its `less(i, j)` is `len(ips[i]) < len(ips[j])`, and a
stable sort by a strict `less` is a stable sort by its reflexive closure. -/
def lenLeP (a b : String) : Prop :=
  goLen a ≤ goLen b

instance : DecidableRel lexLeP :=
  fun a b => inferInstanceAs (Decidable (lexLe a b = true))

instance : DecidableRel lenLeP :=
  fun a b => inferInstanceAs (Decidable (goLen a ≤ goLen b))

/-- Model of `getAllIPs` (pingo.go:231-244): collect the keys (in arbitrary
map order — here the list order), `sort.Strings` them, then
`sort.SliceStable` by ascending length.  `sort.Strings` is determined by its
result (the nondecreasing reordering under the total antisymmetric order
`lexLeP`) and `sort.SliceStable` by stable-sort uniqueness, so both are
modelled exactly by the stable `List.insertionSort`. -/
def getAllIPs (db : databases) : List String :=
  List.insertionSort lenLeP (List.insertionSort lexLeP db.ips)

/-! ## The statistics accumulator (pingo.go, buildStats) -/

/-- The statistics-mutation core of `buildStats` (pingo.go:631-672), acting
on the record fetched for the focused address: ignore lines leave the record
alone, failure lines bump `fails`, and a reply updates min/max (first reply
sets both), recomputes `avg = (min+max)/2` (Go truncated division) only on a
min/max change, and independently compares the reply to the threshold. -/
def updateStats (s : stat) (thres rt : Int) (failed : Bool) : stat × Bool :=
  if rt = -1 ∧ failed = false then (s, false)
  else if rt = -1 ∧ failed = true then ({ s with fails := s.fails + 1 }, true)
  else
    let m1 : stat × Bool :=
      if s.min = 0 ∧ s.max = 0 then ({ s with min := rt, max := rt }, true)
      else if rt < s.min then ({ s with min := rt }, true)
      else if s.max < rt then ({ s with max := rt }, true)
      else (s, false)
    let s2 : stat :=
      if m1.2 then { m1.1 with avg := Int.tdiv (m1.1.min + m1.1.max) 2 }
      else m1.1
    let s3 : stat :=
      if rt = thres then { s2 with «match» := s2.«match» + 1 }
      else if rt > thres then { s2 with above := s2.above + 1 }
      else if rt < thres then { s2 with under := s2.under + 1 }
      else s2
    (s3, true)

/-- Model of `buildStats` (pingo.go:627-673): split the sample message on
"@" into address, threshold and raw output line, classify the line, and fold
it into the address's statistics record.  `none` models the Go panics on a
malformed message (fewer than three fields) or an absent statistics record
(nil-pointer dereference), and a classifier panic propagates. -/
def buildStats (db : databases) (data : String) :
    Option (databases × String × Bool) :=
  match goSplit data '@' with
  | ip :: threshold :: output :: _ =>
    match lookupKey ip db.stats with
    | none => none
    | some s =>
      match getResponseTime output with
      | none => none
      | some (rt, failed) =>
        let r := updateStats s (goAtoi threshold.data) rt failed
        some ({ db with stats := setKey ip r.1 db.stats }, ip, r.2)
  | _ => none

/-! ## One scheduler-loop iteration (pingo.go, scheduler) -/

/-- Scheduler-visible state: the datastore, the current probe target (the
cancellable scope's address), and counters of the cancel /
clear-outputs-view / clear-stats-view signals issued so far. -/
structure schedState where
  db : databases
  activeProbe : Option String
  cancelCount : Nat
  clearOutputsSignals : Nat
  clearStatsSignals : Nat
deriving DecidableEq

/-- One iteration of the scheduler loop receiving `ip` on `ipToPingChan`
(pingo.go:1414-1419): cancel the previous probe scope, send the
clear-outputs-view and clear-stats-view signals, create a fresh scope and
start a probe for `ip`.  The datastore is untouched: no statement in the
scheduler writes to the `stats` map (the clear-stats signal only blanks the
presentation view, pingo.go:609-614). -/
def schedulePing (st : schedState) (ip : String) : schedState :=
  { st with
    cancelCount := st.cancelCount + 1,
    clearOutputsSignals := st.clearOutputsSignals + 1,
    clearStatsSignals := st.clearStatsSignals + 1,
    activeProbe := some ip }

/-! ## The probe runners (pingo.go, executePing / executeTraceroute) -/

/-- Abstract environment of one external probe process: whether obtaining the
combined output pipe fails, whether starting the process fails, and the lines
the pipe yields before EOF/read error. -/
structure procEnv where
  pipeFails : Bool
  startFails : Bool
  lines : List String

/-- Observable effects of one runner: log records written, messages published
on the statistics channel and lines published on the outputs channel. -/
structure runnerOutput where
  logs : List String
  statsOut : List String
  dataOut : List String
deriving DecidableEq

/-- Model of `executePing` (pingo.go:1490-1539): on a pipe or start failure,
log and return before the read loop; otherwise publish, for every non-blank
line, the "ip@threshold@line" sample and the trimmed raw line. -/
def executePing (env : procEnv) (ip threshold : String) : runnerOutput :=
  if env.pipeFails then
    { logs := ["Failed to get ping process pipe:"], statsOut := [],
      dataOut := [] }
  else if env.startFails then
    { logs := ["Failed to start ping:"], statsOut := [], dataOut := [] }
  else
    let kept := env.lines.filter (fun l => !decide (goTrimSpace l = ""))
    { logs := [],
      statsOut := kept.map (fun l => ip ++ "@" ++ threshold ++ "@" ++ goTrimSpace l),
      dataOut := kept.map goTrimSpace }

/-- Model of `executeTraceroute` (pingo.go:1554-1598): same failure handling;
the read loop publishes every trimmed line (no blank-line filter, no
statistics samples). -/
def executeTraceroute (env : procEnv) (ip : String) : runnerOutput :=
  if env.pipeFails then
    { logs := ["Failed to get traceroute process pipe:"], statsOut := [],
      dataOut := [] }
  else if env.startFails then
    { logs := ["Failed to start traceroute:"], statsOut := [], dataOut := [] }
  else
    { logs := [], statsOut := [], dataOut := env.lines.map goTrimSpace }

/-! ## Operation sequences over the store -/

/-- One user-level registry operation: an add or a remove request
(`addNewIP` / `deleteIP`). -/
inductive Op where
  | add (ip : String)
  | remove (ip : String)

/-- Apply one registry operation. -/
def applyOp (validIP : String → Bool) (db : databases) : Op → databases
  | Op.add ip => addNewIP validIP db ip
  | Op.remove ip => deleteIP validIP db ip

/-- Run a sequence of registry operations from a starting store. -/
def runOps (validIP : String → Bool) (ops : List Op) (db : databases) :
    databases :=
  ops.foldl (applyOp validIP) db

/-- The registry lock-step invariant: the three maps have the same key set,
and every present address has an initialized configuration and statistics
record. -/
def inSync (db : databases) : Prop :=
  (∀ k, k ∈ db.ips ↔ (lookupKey k db.configs).isSome = true) ∧
  (∀ k, k ∈ db.ips ↔ (lookupKey k db.stats).isSome = true)

/-! ## Helper lemmas -/

theorem indexOfSub_neg_one_or_nonneg (pat : List Char) (s : List Char) :
    indexOfSub pat s = -1 ∨ 0 ≤ indexOfSub pat s := by
  induction s with
  | nil =>
    by_cases h : pat.isPrefixOf ([] : List Char) <;> simp [indexOfSub, h]
  | cons c t ih =>
    by_cases h : pat.isPrefixOf (c :: t)
    · simp [indexOfSub, h]
    · simp only [indexOfSub, h, if_false]
      by_cases h2 : indexOfSub pat t = -1
      · simp [h2]
      · rcases ih with h3 | h3
        · exact absurd h3 h2
        · simp only [h2, if_false]
          omega

theorem indexOfSub_add_length_le (pat : List Char) (s : List Char)
    (h : 0 ≤ indexOfSub pat s) :
    indexOfSub pat s + pat.length ≤ s.length := by
  induction s with
  | nil =>
    by_cases hp : pat.isPrefixOf ([] : List Char)
    · have hpre : pat <+: ([] : List Char) := List.isPrefixOf_iff_prefix.mp hp
      have hlen := hpre.length_le
      have he : indexOfSub pat [] = 0 := by simp [indexOfSub, hp]
      rw [he]
      simp only [List.length_nil] at hlen ⊢
      omega
    · have he : indexOfSub pat [] = -1 := by simp [indexOfSub, hp]
      rw [he] at h
      omega
  | cons c t ih =>
    by_cases hp : pat.isPrefixOf (c :: t)
    · have hpre : pat <+: (c :: t) := List.isPrefixOf_iff_prefix.mp hp
      have hlen := hpre.length_le
      have he : indexOfSub pat (c :: t) = 0 := by simp [indexOfSub, hp]
      rw [he]
      simp only [List.length_cons] at hlen ⊢
      omega
    · by_cases h2 : indexOfSub pat t = -1
      · have he : indexOfSub pat (c :: t) = -1 := by simp [indexOfSub, hp, h2]
        rw [he] at h
        omega
      · have he : indexOfSub pat (c :: t) = indexOfSub pat t + 1 := by
          simp [indexOfSub, hp, h2]
        have h3 : 0 ≤ indexOfSub pat t :=
          (indexOfSub_neg_one_or_nonneg pat t).resolve_left h2
        have h4 := ih h3
        rw [he]
        simp only [List.length_cons] at h4 ⊢
        omega

theorem goAtoi_eq_zero_of_not_int (cs : List Char) (h : isPlainInt cs = false) :
    goAtoi cs = 0 := by
  unfold isPlainInt at h
  unfold goAtoi
  revert h
  cases hd : (decide ((atoiSign cs).2 = [])) <;>
    cases ha : (atoiSign cs).2.all Char.isDigit <;> simp [hd, ha]

theorem lexLeChars_refl (l : List Char) : lexLeChars l l = true := by
  induction l with
  | nil => rfl
  | cons c t ih => simp [lexLeChars, ih]

theorem lexLeChars_total (a b : List Char) :
    lexLeChars a b = true ∨ lexLeChars b a = true := by
  induction a generalizing b with
  | nil => exact Or.inl rfl
  | cons x xs ih =>
    cases b with
    | nil => exact Or.inr rfl
    | cons y ys =>
      by_cases hxy : x = y
      · subst hxy
        simpa [lexLeChars] using ih ys
      · rcases lt_trichotomy x y with h | h | h
        · exact Or.inl (by simp [lexLeChars, hxy, h])
        · exact absurd h hxy
        · exact Or.inr (by simp [lexLeChars, Ne.symm hxy, h])

theorem lexLeChars_trans (a b c : List Char) (h1 : lexLeChars a b = true)
    (h2 : lexLeChars b c = true) : lexLeChars a c = true := by
  induction a generalizing b c with
  | nil => rfl
  | cons x xs ih =>
    cases b with
    | nil => simp [lexLeChars] at h1
    | cons y ys =>
      cases c with
      | nil => simp [lexLeChars] at h2
      | cons z zs =>
        by_cases hxy : x = y <;> by_cases hyz : y = z
        · subst hxy; subst hyz
          simp only [lexLeChars, if_pos rfl] at h1 h2 ⊢
          exact ih ys zs h1 h2
        · subst hxy
          simp only [lexLeChars, if_neg hyz] at h2
          simp only [lexLeChars, if_neg hyz]
          exact h2
        · subst hyz
          simp only [lexLeChars, if_neg hxy] at h1
          simp only [lexLeChars, if_neg hxy]
          exact h1
        · simp only [lexLeChars, if_neg hxy] at h1
          simp only [lexLeChars, if_neg hyz] at h2
          have hx : x < y := by simpa using h1
          have hy : y < z := by simpa using h2
          have hxz : x < z := lt_trans hx hy
          have : x ≠ z := ne_of_lt hxz
          simp [lexLeChars, this, hxz]

theorem lexLeChars_antisymm (a b : List Char) (h1 : lexLeChars a b = true)
    (h2 : lexLeChars b a = true) : a = b := by
  induction a generalizing b with
  | nil =>
    cases b with
    | nil => rfl
    | cons y ys => simp [lexLeChars] at h2
  | cons x xs ih =>
    cases b with
    | nil => simp [lexLeChars] at h1
    | cons y ys =>
      by_cases hxy : x = y
      · subst hxy
        simp only [lexLeChars, if_pos rfl] at h1 h2
        rw [ih ys h1 h2]
      · simp only [lexLeChars, if_neg hxy] at h1
        simp only [lexLeChars, if_neg (Ne.symm hxy)] at h2
        have hx : x < y := by simpa using h1
        have hy : y < x := by simpa using h2
        exact absurd hy (not_lt_of_lt hx)

instance : IsTotal String lexLeP :=
  ⟨fun a b => lexLeChars_total a.data b.data⟩

instance : IsTrans String lexLeP :=
  ⟨fun a b c => lexLeChars_trans a.data b.data c.data⟩

instance : IsTotal String lenLeP :=
  ⟨fun _ _ => Nat.le_total _ _⟩

instance : IsTrans String lenLeP :=
  ⟨fun _ _ _ h1 h2 => Nat.le_trans h1 h2⟩

theorem lexLeP_antisymm (a b : String) (h1 : lexLeP a b) (h2 : lexLeP b a) :
    a = b := by
  cases a with
  | mk da =>
    cases b with
    | mk db =>
      have := lexLeChars_antisymm da db h1 h2
      rw [this]

theorem eq_of_pair_sublist_of_nodup {α : Type} {l : List α} (hn : l.Nodup)
    {a b : α} (h1 : List.Sublist [a, b] l) (h2 : List.Sublist [b, a] l) :
    a = b := by
  induction l with
  | nil => simp at h1
  | cons x t ih =>
    rcases List.sublist_cons_iff.mp h1 with h1' | ⟨r1, hr1, hr1'⟩
    · rcases List.sublist_cons_iff.mp h2 with h2' | ⟨r2, hr2, hr2'⟩
      · exact ih (List.Nodup.of_cons hn) h1' h2'
      · injection hr2 with hb hr
        subst hb
        have hbmem : b ∈ t := h1'.subset (by simp)
        exact absurd hbmem (List.nodup_cons.mp hn).1
    · injection hr1 with ha hr
      subst ha
      rcases List.sublist_cons_iff.mp h2 with h2' | ⟨r2, hr2, hr2'⟩
      · have hamem : a ∈ t := h2'.subset (by simp)
        exact absurd hamem (List.nodup_cons.mp hn).1
      · injection hr2 with hb hr2tail
        exact hb.symm

theorem pair_sublist_or_of_mem {α : Type} {l : List α} {a b : α} (hab : a ≠ b)
    (ha : a ∈ l) (hb : b ∈ l) :
    List.Sublist [a, b] l ∨ List.Sublist [b, a] l := by
  induction l with
  | nil => simp at ha
  | cons x t ih =>
    rcases List.mem_cons.mp ha with hax | hat
    · subst hax
      have hbt : b ∈ t := by
        rcases List.mem_cons.mp hb with hbx | hbt
        · exact absurd hbx.symm hab
        · exact hbt
      exact Or.inl (List.Sublist.cons₂ a (List.singleton_sublist.mpr hbt))
    · rcases List.mem_cons.mp hb with hbx | hbt
      · subst hbx
        exact Or.inr (List.Sublist.cons₂ b (List.singleton_sublist.mpr hat))
      · exact (ih hat hbt).imp (List.Sublist.cons x) (List.Sublist.cons x)

/-- The presentation ordering of the IP list: ascending string length, ties
broken lexicographically. -/
def ipOrder (a b : String) : Prop :=
  goLen a < goLen b ∨ (goLen a = goLen b ∧ lexLeP a b)

theorem pairwise_ipOrder_insertionSort (l : List String) (hnd : l.Nodup)
    (hs : l.Pairwise lexLeP) :
    (List.insertionSort lenLeP l).Pairwise ipOrder := by
  rw [List.pairwise_iff_forall_sublist]
  intro a b hsub
  have hsorted : (List.insertionSort lenLeP l).Pairwise lenLeP :=
    List.sorted_insertionSort lenLeP l
  have hlen : lenLeP a b := List.pairwise_iff_forall_sublist.mp hsorted hsub
  by_cases heq : goLen a = goLen b
  · refine Or.inr ⟨heq, ?_⟩
    by_cases hab : a = b
    · subst hab
      exact lexLeChars_refl a.data
    · have ham : a ∈ l :=
        (List.perm_insertionSort lenLeP l).subset (hsub.subset (by simp))
      have hbm : b ∈ l :=
        (List.perm_insertionSort lenLeP l).subset (hsub.subset (by simp))
      rcases pair_sublist_or_of_mem hab ham hbm with hio | hoi
      · exact List.pairwise_iff_forall_sublist.mp hs hio
      · have hba : lenLeP b a := le_of_eq heq.symm
        have hnd' : (List.insertionSort lenLeP l).Nodup :=
          ((List.perm_insertionSort lenLeP l).nodup_iff).mpr hnd
        have hstable := List.pair_sublist_insertionSort hba hoi
        exact absurd (eq_of_pair_sublist_of_nodup hnd' hsub hstable) hab
  · exact Or.inl (lt_of_le_of_ne hlen heq)

/-! ## Claim theorems -/

/-- C4: for every set of stored addresses and every insertion order, list()
(`getAllIPs`) returns all addresses sorted by ascending string length with
ties ordered lexicographically; in particular the stored addresses
"1.1.1.1", "8.8.8.8", "10.0.0.1", "2001:db8::1" come back in exactly that
order regardless of insertion order. -/
theorem c4_getAllIPs_sorted_by_length_then_lex :
    (∀ db : databases, db.ips.Nodup →
      List.Perm (getAllIPs db) db.ips ∧ (getAllIPs db).Pairwise ipOrder) ∧
    getAllIPs ⟨["2001:db8::1", "10.0.0.1", "8.8.8.8", "1.1.1.1"], [], []⟩ =
      ["1.1.1.1", "8.8.8.8", "10.0.0.1", "2001:db8::1"] ∧
    getAllIPs ⟨["8.8.8.8", "1.1.1.1", "2001:db8::1", "10.0.0.1"], [], []⟩ =
      ["1.1.1.1", "8.8.8.8", "10.0.0.1", "2001:db8::1"] := by
  refine ⟨fun db hnd => ⟨?_, ?_⟩, by decide, by decide⟩
  · exact (List.perm_insertionSort lenLeP _).trans
      (List.perm_insertionSort lexLeP _)
  · exact pairwise_ipOrder_insertionSort _
      (((List.perm_insertionSort lexLeP db.ips).nodup_iff).mpr hnd)
      (List.sorted_insertionSort lexLeP db.ips)

/-- Witness for C4 at a concrete store. -/
theorem c4_witness :
    List.Perm (getAllIPs ⟨["8.8.8.8", "1.1.1.1"], [], []⟩)
      ["8.8.8.8", "1.1.1.1"] ∧
    (getAllIPs ⟨["8.8.8.8", "1.1.1.1"], [], []⟩).Pairwise ipOrder :=
  c4_getAllIPs_sorted_by_length_then_lex.1 ⟨["8.8.8.8", "1.1.1.1"], [], []⟩
    (by decide)

/-- C8: folding a failure-classified sample (sentinel round-trip time -1,
failure flag set) into the accumulator increments exactly the failure
counter and leaves min, avg, max, match, above and under unchanged. -/
theorem c8_failure_sample_increments_only_fails (s : stat) (thres : Int) :
    updateStats s thres (-1) true = ({ s with fails := s.fails + 1 }, true) := by
  simp [updateStats]

/-- C1 counterexample: scheduling a new probe session for "1.1.1.1" (the
ActiveProbe target switches to it) does not reset that address's statistics
record to zero — the record still holds the values accumulated before the
switch, so the first sample of the new session is applied to a non-zero
record.  This falsifies the claim that the new target's record is zeroed
when the session is scheduled. -/
theorem c1_counterexample :
    let st : schedState :=
      { db := ⟨["1.1.1.1"], [("1.1.1.1", defaultConfig)],
          [("1.1.1.1",
            { min := 5, avg := 5, max := 5, fails := 1, «match» := 2,
                above := 3, under := 4 })]⟩,
          activeProbe := some "8.8.8.8", cancelCount := 0,
          clearOutputsSignals := 0, clearStatsSignals := 0 }
    (schedulePing st "1.1.1.1").activeProbe = some "1.1.1.1" ∧
    getStats (schedulePing st "1.1.1.1").db "1.1.1.1" =
      some { min := 5, avg := 5, max := 5, fails := 1, «match» := 2,
              above := 3, under := 4 } ∧
    getStats (schedulePing st "1.1.1.1").db "1.1.1.1" ≠ some zeroStat := by
  decide

/-- C1 amended: scheduling a new probe session cancels the previous scope
and emits the clear-view signals (the clear-stats signal only blanks the
statistics view), but mutates no statistics record at all: neither the new
target's record (which is never reset, so statistics accumulate across probe
sessions) nor the record of the previously active address. -/
theorem c1_switch_leaves_all_stats_records_unchanged (st : schedState)
    (ip : String) :
    (schedulePing st ip).db = st.db ∧
    (schedulePing st ip).activeProbe = some ip ∧
    (schedulePing st ip).clearStatsSignals = st.clearStatsSignals + 1 ∧
    (schedulePing st ip).clearOutputsSignals = st.clearOutputsSignals + 1 ∧
    (schedulePing st ip).cancelCount = st.cancelCount + 1 :=
  ⟨rfl, rfl, rfl, rfl, rfl⟩

/-- C7 counterexample: with "1.1.1.1" as the ActiveProbe's ping target
(currentOnPingIP), a delete request for the same address written with a
leading space is NOT a no-op: the raw token " 1.1.1.1" differs from
currentOnPingIP, so it escapes the guard, is trimmed inside deleteIP, and
the actively probed address is removed from the store. -/
theorem c7_counterexample :
    let db : databases :=
      ⟨["1.1.1.1"], [("1.1.1.1", defaultConfig)], [("1.1.1.1", zeroStat)]⟩
    isExistsIP
      (deleteOneMoreIPs (fun s => decide (s = "1.1.1.1")) "1.1.1.1" db
        " 1.1.1.1") "1.1.1.1" = false ∧
    getAllIPs
      (deleteOneMoreIPs (fun s => decide (s = "1.1.1.1")) "1.1.1.1" db
        " 1.1.1.1") = [] := by
  decide

/-- C7 amended: a delete request is a no-op for the active target only when
the request token is written exactly as currentOnPingIP (the address of the
active ping probe); then the store is untouched.  A token written
differently (for example with surrounding whitespace) is trimmed and
deleted, and a traceroute target is not protected at all, since
addTraceroute resets currentOnPingIP to the empty string. -/
theorem c7_delete_skips_exact_active_ping_token (validIP : String → Bool)
    (cur : String) (db : databases) (h : goSplit cur ',' = [cur]) :
    deleteOneMoreIPs validIP cur db cur = db := by
  simp [deleteOneMoreIPs, h]

/-- Witness for C7 amended at a concrete store. -/
theorem c7_witness :
    deleteOneMoreIPs (fun s => decide (s = "1.1.1.1")) "1.1.1.1"
      ⟨["1.1.1.1"], [("1.1.1.1", defaultConfig)], [("1.1.1.1", zeroStat)]⟩
      "1.1.1.1" =
      ⟨["1.1.1.1"], [("1.1.1.1", defaultConfig)], [("1.1.1.1", zeroStat)]⟩ :=
  c7_delete_skips_exact_active_ping_token (fun s => decide (s = "1.1.1.1"))
    "1.1.1.1"
    ⟨["1.1.1.1"], [("1.1.1.1", defaultConfig)], [("1.1.1.1", zeroStat)]⟩
    (by decide)

/-- C9: if the runner fails to obtain the combined output stream or to start
the external process, it returns immediately without entering the read loop:
no output line and no statistics sample is published, and exactly one log
record reports the failure (no retry happens — the runner produces one
result and ends). -/
theorem c9_start_failure_publishes_nothing (env : procEnv)
    (ip threshold : String)
    (h : env.pipeFails = true ∨ env.startFails = true) :
    (executePing env ip threshold).statsOut = [] ∧
    (executePing env ip threshold).dataOut = [] ∧
    (executePing env ip threshold).logs.length = 1 ∧
    (executeTraceroute env ip).statsOut = [] ∧
    (executeTraceroute env ip).dataOut = [] ∧
    (executeTraceroute env ip).logs.length = 1 := by
  by_cases hp : env.pipeFails = true
  · simp [executePing, executeTraceroute, hp]
  · rcases h with h | h
    · exact absurd h hp
    · simp [executePing, executeTraceroute, hp, h]

/-- Witness for C9 at a concrete environment. -/
theorem c9_witness :
    (executePing ⟨true, false, ["64 bytes"]⟩ "1.1.1.1" "20").statsOut = [] ∧
    (executePing ⟨true, false, ["64 bytes"]⟩ "1.1.1.1" "20").dataOut = [] ∧
    (executePing ⟨true, false, ["64 bytes"]⟩ "1.1.1.1" "20").logs.length = 1 ∧
    (executeTraceroute ⟨true, false, ["64 bytes"]⟩ "1.1.1.1").statsOut = [] ∧
    (executeTraceroute ⟨true, false, ["64 bytes"]⟩ "1.1.1.1").dataOut = [] ∧
    (executeTraceroute ⟨true, false, ["64 bytes"]⟩ "1.1.1.1").logs.length = 1 :=
  c9_start_failure_publishes_nothing ⟨true, false, ["64 bytes"]⟩ "1.1.1.1" "20"
    (Or.inl rfl)

theorem getResponseTime_eq_some (output : String)
    (hT : indexOfSub "time=".data output.data > 0)
    (hM : indexOfSub "time=".data output.data + 5 ≤
      indexOfSub " ms".data output.data) :
    getResponseTime output =
      some (goAtoi (sliceChars output.data
        (indexOfSub "time=".data output.data + 5).toNat
        (indexOfSub " ms".data output.data).toNat), false) := by
  have hM0 : 0 ≤ indexOfSub " ms".data output.data := by omega
  have hMlen := indexOfSub_add_length_le " ms".data output.data hM0
  have hms3 : ((" ms".data : List Char)).length = 3 := by decide
  rw [hms3] at hMlen
  unfold getResponseTime
  rw [if_pos hT, if_pos ⟨by omega, hM, by omega⟩]

theorem getResponseTime_eq_none (output : String)
    (hT : indexOfSub "time=".data output.data > 0)
    (hM : indexOfSub " ms".data output.data <
      indexOfSub "time=".data output.data + 5) :
    getResponseTime output = none := by
  unfold getResponseTime
  rw [if_pos hT, if_neg (fun hc => absurd hc.2.1 (by omega))]

set_option maxHeartbeats 1600000 in
/-- C2: folding the successful samples 10, 30, 20 with threshold 20 through
the accumulator yields min=10, avg=20, max=30, match=1, above=1, under=1,
fails=0; in general the first successful reply sets min=max=value, a later
reply updates min only when value is below min or max only when value is
above max (never both, ties update neither), avg is recomputed as
(min+max)/2 exactly when min or max changed, and every successful sample is
independently compared to the threshold. -/
theorem c2_accumulator_behaviour :
    ((updateStats (updateStats (updateStats zeroStat 20 10 false).1 20 30
        false).1 20 20 false).1 =
      { min := 10, avg := 20, max := 30, fails := 0, «match» := 1, above := 1,
          under := 1 }) ∧
    (∀ (s : stat) (thres rt : Int), rt ≠ -1 → s.min = 0 → s.max = 0 →
      (updateStats s thres rt false).1.min = rt ∧
      (updateStats s thres rt false).1.max = rt) ∧
    (∀ (s : stat) (thres rt : Int), rt ≠ -1 → ¬(s.min = 0 ∧ s.max = 0) →
      s.min ≤ s.max →
      ((rt < s.min → (updateStats s thres rt false).1.min = rt ∧
          (updateStats s thres rt false).1.max = s.max) ∧
       (s.max < rt → (updateStats s thres rt false).1.max = rt ∧
          (updateStats s thres rt false).1.min = s.min) ∧
       (s.min ≤ rt → rt ≤ s.max →
          (updateStats s thres rt false).1.min = s.min ∧
          (updateStats s thres rt false).1.max = s.max))) ∧
    (∀ (s : stat) (thres rt : Int), rt ≠ -1 → ¬(s.min = 0 ∧ s.max = 0) →
      (((updateStats s thres rt false).1.min ≠ s.min ∨
        (updateStats s thres rt false).1.max ≠ s.max) →
        (updateStats s thres rt false).1.avg =
          Int.tdiv ((updateStats s thres rt false).1.min +
            (updateStats s thres rt false).1.max) 2) ∧
      ((updateStats s thres rt false).1.min = s.min ∧
          (updateStats s thres rt false).1.max = s.max →
        (updateStats s thres rt false).1.avg = s.avg)) ∧
    (∀ (s : stat) (thres rt : Int), rt ≠ -1 →
      (updateStats s thres rt false).1.«match» =
        s.«match» + (if rt = thres then 1 else 0) ∧
      (updateStats s thres rt false).1.above =
        s.above + (if thres < rt then 1 else 0) ∧
      (updateStats s thres rt false).1.under =
        s.under + (if rt < thres then 1 else 0) ∧
      (updateStats s thres rt false).1.fails = s.fails) := by
  refine ⟨by decide, ?_, ?_, ?_, ?_⟩
  · intro s thres rt hrt h1 h2
    simp [updateStats, hrt, h1, h2]
    split_ifs <;> simp <;> omega
  · intro s thres rt hrt hnot hmm
    simp [updateStats, hrt, hnot]
    split_ifs <;> simp <;> omega
  · intro s thres rt hrt hnot
    simp only [updateStats]
    split_ifs <;> simp <;> intros <;> first | omega | simp_all
  · intro s thres rt hrt
    simp [updateStats, hrt]
    split_ifs <;> simp <;> omega

/-- Witness for C2 at concrete accumulator states. -/
theorem c2_witness :
    (updateStats zeroStat 20 7 false).1.min = 7 ∧
    (updateStats zeroStat 20 7 false).1.max = 7 :=
  c2_accumulator_behaviour.2.1 zeroStat 20 7 (by decide) rfl rfl

/-- C3: on every line in which "time=" occurs at a positive index and the
text between "time=" and the " ms" marker is not a plain decimal-integer
string (such as the fractional Linux reply time "0.041"), the classifier
discards the conversion error and returns (0, false) — not the fractional
value, not a failure, not the ignore sentinel; consequently such a sample
applied to a record with min = max = 0 keeps min = max = 0, so it satisfies
the accumulator's first-sample test again. -/
theorem c3_fractional_time_classified_as_zero :
    (∀ output : String,
      indexOfSub "time=".data output.data > 0 →
      indexOfSub "time=".data output.data + 5 ≤
        indexOfSub " ms".data output.data →
      isPlainInt (sliceChars output.data
        (indexOfSub "time=".data output.data + 5).toNat
        (indexOfSub " ms".data output.data).toNat) = false →
      getResponseTime output = some (0, false)) ∧
    getResponseTime "64 bytes from 127.0.0.1: icmp_seq=1 ttl=64 time=0.041 ms" =
      some (0, false) ∧
    (∀ (s : stat) (thres : Int), s.min = 0 → s.max = 0 →
      (updateStats s thres 0 false).1.min = 0 ∧
      (updateStats s thres 0 false).1.max = 0) := by
  refine ⟨?_, by decide, ?_⟩
  · intro output hT hM hBad
    rw [getResponseTime_eq_some output hT hM,
      goAtoi_eq_zero_of_not_int _ hBad]
  · intro s thres h1 h2
    simp [updateStats, h1, h2]
    split_ifs <;> simp

/-- Witness for C3 on the canonical Linux reply line. -/
theorem c3_witness :
    getResponseTime "64 bytes from 127.0.0.1: icmp_seq=1 ttl=64 time=0.2 ms" =
      some (0, false) :=
  c3_fractional_time_classified_as_zero.1
    "64 bytes from 127.0.0.1: icmp_seq=1 ttl=64 time=0.2 ms" (by decide)
    (by decide) (by decide)

/-- C10 counterexample: the line "atime=" contains "time=" at positive index
1 but no " ms" marker, and on it the classifier's slice
output[(indexT+5):indexM] is out of range (indexM = -1): the model returns
none, the Go code panics.  The classifier is therefore not total on lines
containing "time=" at a positive index. -/
theorem c10_counterexample :
    indexOfSub "time=".data "atime=".data = 1 ∧
    getResponseTime "atime=" = none := by
  decide

/-- C10 amended: for a line with "time=" at positive index, the slice
output[(indexT+5):indexM] is in range if and only if the first " ms" occurs
at index at least indexT+5; when " ms" is missing or occurs before that
position the extraction is out of range (a runtime panic, modelled as
none). -/
theorem c10_slice_in_range_iff_ms_after_time (output : String)
    (hT : indexOfSub "time=".data output.data > 0) :
    getResponseTime output = none ↔
      indexOfSub " ms".data output.data <
        indexOfSub "time=".data output.data + 5 := by
  by_cases hlt : indexOfSub " ms".data output.data <
      indexOfSub "time=".data output.data + 5
  · simp [getResponseTime_eq_none output hT hlt, hlt]
  · rw [getResponseTime_eq_some output hT (by omega)]
    simp [hlt]

/-- Witness for C10 amended on the panicking line "atime=". -/
theorem c10_witness :
    getResponseTime "atime=" = none :=
  (c10_slice_in_range_iff_ms_after_time "atime=" (by decide)).mpr (by decide)

theorem lookupKey_setKey_self {β : Type} (k : String) (v : β)
    (m : List (String × β)) : lookupKey k (setKey k v m) = some v := by
  simp [setKey, lookupKey]

theorem lookupKey_filter_ne {β : Type} (k k' : String) (m : List (String × β))
    (h : k' ≠ k) :
    lookupKey k' (m.filter (fun p => !decide (p.1 = k))) = lookupKey k' m := by
  induction m with
  | nil => rfl
  | cons p t ih =>
    by_cases hp : p.1 = k
    · have hpk : p.1 ≠ k' := fun hh => h (hp.symm.trans hh).symm
      rw [List.filter_cons, if_neg (by simp [hp]), ih]
      exact (if_neg hpk).symm
    · rw [List.filter_cons, if_pos (by simp [hp])]
      by_cases hk' : p.1 = k'
      · simp only [lookupKey, if_pos hk']
      · simp only [lookupKey, if_neg hk']
        exact ih

theorem lookupKey_setKey_ne {β : Type} (k k' : String) (v : β)
    (m : List (String × β)) (h : k' ≠ k) :
    lookupKey k' (setKey k v m) = lookupKey k' m := by
  simp only [setKey, lookupKey]
  rw [if_neg (fun hh => h hh.symm)]
  exact lookupKey_filter_ne k k' m h

theorem lookupKey_delKey_self {β : Type} (k : String) (m : List (String × β)) :
    lookupKey k (delKey k m) = none := by
  induction m with
  | nil => rfl
  | cons p t ih =>
    by_cases hp : p.1 = k
    · rw [delKey, List.filter_cons, if_neg (by simp [hp])]
      exact ih
    · rw [delKey, List.filter_cons, if_pos (by simp [hp])]
      simp only [lookupKey, if_neg hp]
      exact ih

theorem lookupKey_delKey_ne {β : Type} (k k' : String) (m : List (String × β))
    (h : k' ≠ k) : lookupKey k' (delKey k m) = lookupKey k' m :=
  lookupKey_filter_ne k k' m h

theorem inSync_addNewIP (validIP : String → Bool) (db : databases)
    (ip : String) (h : inSync db) : inSync (addNewIP validIP db ip) := by
  unfold addNewIP
  by_cases hg : (!validIP (goTrimSpace ip) ||
      isExistsIP db (goTrimSpace ip)) = true
  · rw [if_pos hg]
    exact h
  · rw [if_neg hg]
    simp only [Bool.or_eq_true, Bool.not_eq_true', isExistsIP] at hg
    push_neg at hg
    have hcont : db.ips.contains (goTrimSpace ip) = false := by
      simpa using hg.2
    constructor
    · intro k
      simp only [addStats, addConfig, addIP, hcont, Bool.false_eq_true,
        if_false, List.mem_cons]
      by_cases hk : k = goTrimSpace ip
      · subst hk
        simp [lookupKey_setKey_self]
      · rw [lookupKey_setKey_ne _ _ _ _ hk]
        simp only [hk, false_or]
        exact h.1 k
    · intro k
      simp only [addStats, addConfig, addIP, hcont, Bool.false_eq_true,
        if_false, List.mem_cons]
      by_cases hk : k = goTrimSpace ip
      · subst hk
        simp [lookupKey_setKey_self]
      · rw [lookupKey_setKey_ne _ _ _ _ hk]
        simp only [hk, false_or]
        exact h.2 k

theorem inSync_deleteIP (validIP : String → Bool) (db : databases)
    (ip : String) (h : inSync db) : inSync (deleteIP validIP db ip) := by
  unfold deleteIP
  by_cases hg : (!validIP (goTrimSpace ip) ||
      !isExistsIP db (goTrimSpace ip)) = true
  · rw [if_pos hg]
    exact h
  · rw [if_neg hg]
    constructor
    · intro k
      simp only [List.mem_filter]
      by_cases hk : k = goTrimSpace ip
      · subst hk
        simp [lookupKey_delKey_self]
      · rw [lookupKey_delKey_ne _ _ _ hk]
        simp only [hk]
        constructor
        · intro hkk
          exact (h.1 k).mp hkk.1
        · intro hkk
          exact ⟨(h.1 k).mpr hkk, by simp [hk]⟩
    · intro k
      simp only [List.mem_filter]
      by_cases hk : k = goTrimSpace ip
      · subst hk
        simp [lookupKey_delKey_self]
      · rw [lookupKey_delKey_ne _ _ _ hk]
        simp only [hk]
        constructor
        · intro hkk
          exact (h.2 k).mp hkk.1
        · intro hkk
          exact ⟨(h.2 k).mpr hkk, by simp [hk]⟩

theorem inSync_runOps (validIP : String → Bool) (ops : List Op) :
    ∀ db : databases, inSync db → inSync (runOps validIP ops db) := by
  induction ops with
  | nil => exact fun db h => h
  | cons op t ih =>
    intro db h
    cases op with
    | add ip => exact ih _ (inSync_addNewIP validIP db ip h)
    | remove ip => exact ih _ (inSync_deleteIP validIP db ip h)

theorem nodup_ips_addNewIP (validIP : String → Bool) (db : databases)
    (ip : String) (h : db.ips.Nodup) : (addNewIP validIP db ip).ips.Nodup := by
  unfold addNewIP
  by_cases hg : (!validIP (goTrimSpace ip) ||
      isExistsIP db (goTrimSpace ip)) = true
  · rw [if_pos hg]
    exact h
  · rw [if_neg hg]
    simp only [Bool.or_eq_true, Bool.not_eq_true', isExistsIP] at hg
    push_neg at hg
    have hcont : db.ips.contains (goTrimSpace ip) = false := by
      simpa using hg.2
    have hmem : goTrimSpace ip ∉ db.ips := by
      intro hm
      have h2 : List.elem (goTrimSpace ip) db.ips = false := hcont
      rw [List.elem_eq_true_of_mem hm] at h2
      cases h2

    simp only [addStats, addConfig, addIP, hcont, Bool.false_eq_true, if_false]
    exact List.Nodup.cons hmem h

theorem nodup_ips_deleteIP (validIP : String → Bool) (db : databases)
    (ip : String) (h : db.ips.Nodup) : (deleteIP validIP db ip).ips.Nodup := by
  unfold deleteIP
  by_cases hg : (!validIP (goTrimSpace ip) ||
      !isExistsIP db (goTrimSpace ip)) = true
  · rw [if_pos hg]
    exact h
  · rw [if_neg hg]
    exact h.filter _

theorem nodup_ips_runOps (validIP : String → Bool) (ops : List Op) :
    ∀ db : databases, db.ips.Nodup → (runOps validIP ops db).ips.Nodup := by
  induction ops with
  | nil => exact fun db h => h
  | cons op t ih =>
    intro db h
    cases op with
    | add ip => exact ih _ (nodup_ips_addNewIP validIP db ip h)
    | remove ip => exact ih _ (nodup_ips_deleteIP validIP db ip h)

/-- C5: after every sequence of add and remove operations starting from the
empty store, the three maps hold exactly the same key set, and every present
address has an initialized configuration record and statistics record. -/
theorem c5_registry_lock_step_invariant (validIP : String → Bool)
    (ops : List Op) : inSync (runOps validIP ops newDatabases) := by
  apply inSync_runOps
  constructor
  · intro k
    simp [newDatabases, lookupKey]
  · intro k
    simp [newDatabases, lookupKey]

/-- C6: adding an address that is already present (in a store reachable from
the empty one) is a no-op — the store, including the address's existing
configuration and statistics records, is unchanged — and list() afterwards
still holds exactly one occurrence of the address. -/
theorem c6_add_is_idempotent (validIP : String → Bool) (ops : List Op)
    (ip : String) (hvalid : validIP (goTrimSpace ip) = true)
    (hexists : isExistsIP (runOps validIP ops newDatabases)
      (goTrimSpace ip) = true) :
    addNewIP validIP (runOps validIP ops newDatabases) ip =
      runOps validIP ops newDatabases ∧
    (getAllIPs (addNewIP validIP (runOps validIP ops newDatabases) ip)).count
      (goTrimSpace ip) = 1 := by
  have hnoop : addNewIP validIP (runOps validIP ops newDatabases) ip =
      runOps validIP ops newDatabases := by
    unfold addNewIP
    rw [if_pos (by simp [hexists])]
  refine ⟨hnoop, ?_⟩
  rw [hnoop]
  have hperm : List.Perm (getAllIPs (runOps validIP ops newDatabases))
      (runOps validIP ops newDatabases).ips :=
    (List.perm_insertionSort lenLeP _).trans (List.perm_insertionSort lexLeP _)
  have hnd : (runOps validIP ops newDatabases).ips.Nodup :=
    nodup_ips_runOps validIP ops newDatabases (by simp [newDatabases])
  have hmem : goTrimSpace ip ∈ (runOps validIP ops newDatabases).ips := by
    have hx := hexists
    unfold isExistsIP at hx
    exact List.mem_of_elem_eq_true hx
  rw [hperm.count_eq]
  exact List.count_eq_one_of_mem hnd hmem

/-- Witness for C6 at a concrete store. -/
theorem c6_witness :
    addNewIP (fun _ => true) (runOps (fun _ => true) [Op.add "1.1.1.1"]
      newDatabases) "1.1.1.1" =
      runOps (fun _ => true) [Op.add "1.1.1.1"] newDatabases ∧
    (getAllIPs (addNewIP (fun _ => true) (runOps (fun _ => true)
      [Op.add "1.1.1.1"] newDatabases) "1.1.1.1")).count "1.1.1.1" = 1 :=
  c6_add_is_idempotent (fun _ => true) [Op.add "1.1.1.1"] "1.1.1.1"
    (by decide) (by decide)

end Pingo
